import Mathlib

/-!
Verification development for the monthly_audit_report repository.

The Python sources under src/ are shallowly embedded below:
* `src/timeutil.py`  — calendar arithmetic (`PyDate`, `report_quarters`, quarter deadlines);
* `src/opengov.py`   — the crawler (`fetch_docs_all` pagination loop, `parse_date_loose`,
  `extract_year_quarter`);
* `src/orgs.py`      — organization normalization and matching;
* `src/main.py`      — quarter-status reconciliation (`compute_quarter_status`),
  month filtering (`is_doc_in_month`) and the per-attachment processing step;
* `src/summarize.py` — the summarizer dispatch;
* `src/state.py`     — the persisted seen-set.

Python `datetime.date` values are embedded as year/month/day triples; comparisons
and `timedelta` additions are carried out on the proleptic-Gregorian ordinal
(`dateOrd`, matching CPython's `date.toordinal`), which agrees with Python's
lexicographic date comparison on valid dates. Network and filesystem effects are
passed in as explicit oracle arguments. Regular-expression searches are embedded
as left-to-right scanners with the same greedy/lazy backtracking behaviour as
Python's `re` engine on the concrete patterns used by the code (with `\d` and
`\s` read as their ASCII classes, which covers every input in scope).
-/

/-- Embedding of Python `datetime.date`: a year/month/day triple. -/
structure PyDate where
  year : ℤ
  month : ℤ
  day : ℤ
deriving DecidableEq

/-- Gregorian leap-year rule, as in CPython's `datetime` module. -/
def isLeapYear (y : ℤ) : Bool :=
  (y % 4 = 0 && y % 100 ≠ 0) || y % 400 = 0

/-- Days in a month of a given year (Gregorian). -/
def daysInMonth (y m : ℤ) : ℤ :=
  if m = 2 then (if isLeapYear y then 29 else 28)
  else if m = 4 ∨ m = 6 ∨ m = 9 ∨ m = 11 then 30
  else 31

/-- The dates `datetime.date(y, m, d)` accepts: `MINYEAR = 1`, `MAXYEAR = 9999`. -/
def isValidDate (y m d : ℤ) : Bool :=
  1 ≤ y && y ≤ 9999 && 1 ≤ m && m ≤ 12 && 1 ≤ d && d ≤ daysInMonth y m

/-- Days in the complete years before year `y` (proleptic Gregorian). -/
def daysBeforeYear (y : ℤ) : ℤ :=
  365 * (y - 1) + (y - 1).fdiv 4 - (y - 1).fdiv 100 + (y - 1).fdiv 400

/-- Days in the complete months of year `y` before month `m`. -/
def daysBeforeMonth (y m : ℤ) : ℤ :=
  (if m = 1 then 0 else if m = 2 then 31 else if m = 3 then 59
   else if m = 4 then 90 else if m = 5 then 120 else if m = 6 then 151
   else if m = 7 then 181 else if m = 8 then 212 else if m = 9 then 243
   else if m = 10 then 273 else if m = 11 then 304 else 334)
  + (if 2 < m ∧ isLeapYear y then 1 else 0)

/-- CPython's `date.toordinal`: day 1 is 0001-01-01. Python compares dates and
adds `timedelta` day counts exactly as this ordinal compares and adds. -/
def dateOrd (d : PyDate) : ℤ :=
  daysBeforeYear d.year + daysBeforeMonth d.year d.month + d.day

/-- `timeutil.YearMonth`. -/
structure YearMonth where
  year : ℤ
  month : ℤ
deriving DecidableEq

/-- `timeutil.YearQuarter`. -/
structure YearQuarter where
  year : ℤ
  quarter : ℤ
deriving DecidableEq

/-- `timeutil.quarter_end_date`: fixed quarter-end dates; Python raises
`ValueError` outside 1..4, embedded as `none`. -/
def quarter_end_date (year quarter : ℤ) : Option PyDate :=
  if quarter = 1 then some ⟨year, 3, 31⟩
  else if quarter = 2 then some ⟨year, 6, 30⟩
  else if quarter = 3 then some ⟨year, 9, 30⟩
  else if quarter = 4 then some ⟨year, 12, 31⟩
  else none

/-- Ordinal of `timeutil.quarter_deadline(year, quarter, buffer_days)`,
i.e. `quarter_end_date + timedelta(days=buffer_days)`. -/
def quarter_deadline_ord (year quarter buffer_days : ℤ) : Option ℤ :=
  (quarter_end_date year quarter).map (fun d => dateOrd d + buffer_days)

/-- The target year chosen by `timeutil.report_quarters`: the current year,
minus one when the month is January or February. -/
def report_target_year (today : PyDate) : ℤ :=
  if today.month ≤ 2 then today.year - 1 else today.year

/-- `timeutil.report_quarters`: Q1..Q4 of the target year, in that order
(`[YearQuarter(target_year, q) for q in range(1, 5)]`). -/
def report_quarters (today : PyDate) : List YearQuarter :=
  (List.range 4).map (fun i => ⟨report_target_year today, (i : ℤ) + 1⟩)

/-- Numeric value of an ASCII digit character (`int` on a digit group). -/
def charVal (c : Char) : ℤ := (c.toNat : ℤ) - 48

/-- The `{., -, /}` separator class of `parse_date_loose`'s pattern. -/
def sepChar (c : Char) : Bool := c = '.' || c = '-' || c = '/'

/-- The day leg `(\d{1,2})` at the end of the date pattern: greedy, so two
digits are captured when two are available, else one. -/
def matchDayFrom : List Char → Option ℤ
  | [] => none
  | [d1] => if d1.isDigit then some (charVal d1) else none
  | d1 :: d2 :: _ =>
    if d1.isDigit then
      (if d2.isDigit then some (10 * charVal d1 + charVal d2) else some (charVal d1))
    else none

/-- The one-digit-month reading (one digit, a separator, then the day leg),
the backtracking fallback of the month group. -/
def matchMSD1 : List Char → Option (ℤ × ℤ)
  | m1 :: s :: rest =>
    if m1.isDigit && sepChar s then (matchDayFrom rest).map (fun d => (charVal m1, d))
    else none
  | _ => none

/-- The month-separator-day tail of the date pattern, with the regex engine's
greedy month: a two-digit month is tried first and the engine backtracks to
one digit when the rest of the pattern fails. -/
def matchMSD (l : List Char) : Option (ℤ × ℤ) :=
  match l with
  | m1 :: m2 :: s :: rest =>
    if m1.isDigit && m2.isDigit && sepChar s then
      match matchDayFrom rest with
      | some d => some (10 * charVal m1 + charVal m2, d)
      | none => matchMSD1 (m1 :: m2 :: s :: rest)
    else matchMSD1 (m1 :: m2 :: s :: rest)
  | other => matchMSD1 other

/-- A match of the full date pattern (year, separator, month, separator, day)
anchored at the head of the list, returning the captured values. -/
def matchYMD (l : List Char) : Option (ℤ × ℤ × ℤ) :=
  match l with
  | y1 :: y2 :: y3 :: y4 :: s :: rest =>
    if y1.isDigit && y2.isDigit && y3.isDigit && y4.isDigit && sepChar s then
      (matchMSD rest).map (fun md =>
        (1000 * charVal y1 + 100 * charVal y2 + 10 * charVal y3 + charVal y4, md.1, md.2))
    else none
  | _ => none

/-- `re.search` over the date pattern: the match anchored at the leftmost
position where one exists. -/
def searchDate : List Char → Option (ℤ × ℤ × ℤ)
  | [] => none
  | c :: cs =>
    match matchYMD (c :: cs) with
    | some r => some r
    | none => searchDate cs

/-- `opengov.parse_date_loose`: search the text for the loose date pattern and
build a `date`; an invalid calendar date (the `except` around the `date`
constructor) or a missing match yields `None`. -/
def parse_date_loose (s : String) : Option PyDate :=
  match searchDate s.data with
  | none => none
  | some (y, mo, d) => if isValidDate y mo d then some ⟨y, mo, d⟩ else none

/-- Value of a digit string read left to right (how `int` reads a group). -/
def digitsVal (l : List Char) : ℤ := l.foldl (fun a c => 10 * a + charVal c) 0

/-- Declarative form of one instance of the date pattern: `l` is exactly four
digits, a separator, one or two digits, a separator, one or two digits. The two
separators are chosen independently, as in the pattern `{., -, /}` twice. -/
def matchesTriple (l : List Char) (y m d : ℤ) : Prop :=
  ∃ (ys : List Char) (s1 : Char) (ms : List Char) (s2 : Char) (ds : List Char),
    l = ys ++ [s1] ++ ms ++ [s2] ++ ds ∧
    ys.length = 4 ∧ (∀ c ∈ ys, c.isDigit = true) ∧
    sepChar s1 = true ∧ sepChar s2 = true ∧
    1 ≤ ms.length ∧ ms.length ≤ 2 ∧ (∀ c ∈ ms, c.isDigit = true) ∧
    1 ≤ ds.length ∧ ds.length ≤ 2 ∧ (∀ c ∈ ds, c.isDigit = true) ∧
    y = digitsVal ys ∧ m = digitsVal ms ∧ d = digitsVal ds

/-- The `([1-4])` quarter digit class of `_Q_RE`. -/
def isQuarterDigit (c : Char) : Bool := c = '1' || c = '2' || c = '3' || c = '4'

/-- Does `\s*분기` match at the head of `l`? (`\s*` is greedy but `'분'` is not
whitespace, so dropping the whole whitespace run is exact.) -/
def quarterMarkerAfter (l : List Char) : Bool :=
  match l.dropWhile (fun c => c.isWhitespace) with
  | b :: g :: _ => b = '분' && g = '기'
  | _ => false

/-- The lazy tail `.*?([1-4])\s*분기` of `_Q_RE`: the engine tries the group at
each position before consuming one more character with `.` (which does not
match a newline). -/
def scanQuarter : List Char → Option ℤ
  | [] => none
  | c :: cs =>
    if isQuarterDigit c && quarterMarkerAfter cs then some (charVal c)
    else if c ≠ '\n' then scanQuarter cs
    else none

/-- A match of `_Q_RE = (\d{4})\s*년.*?([1-4])\s*분기` anchored at the head. -/
def matchYQAt : List Char → Option (ℤ × ℤ)
  | y1 :: y2 :: y3 :: y4 :: rest =>
    if y1.isDigit && y2.isDigit && y3.isDigit && y4.isDigit then
      match rest.dropWhile (fun c => c.isWhitespace) with
      | n :: rest2 =>
        if n = '년' then
          (scanQuarter rest2).map (fun q =>
            (1000 * charVal y1 + 100 * charVal y2 + 10 * charVal y3 + charVal y4, q))
        else none
      | [] => none
    else none
  | _ => none

/-- `re.search` over `_Q_RE`: leftmost match. -/
def searchYQ : List Char → Option (ℤ × ℤ)
  | [] => none
  | c :: cs =>
    match matchYQAt (c :: cs) with
    | some r => some r
    | none => searchYQ cs

/-- `opengov.extract_year_quarter`: `(year, quarter)` of the first `_Q_RE`
match, or `(None, None)`. -/
def extract_year_quarter (s : String) : Option ℤ × Option ℤ :=
  match searchYQ s.data with
  | some (y, q) => (some y, some q)
  | none => (none, none)

/-- States the spec's words for claim C7, for comparison with the code's
`parse_date_loose`: the day leg of a same-separator date pattern, accepting
either a two-digit or a one-digit day that completes a valid calendar date. -/
def specDayHere (y m : ℤ) : List Char → Bool
  | d1 :: d2 :: _ =>
    (d1.isDigit && d2.isDigit && isValidDate y m (10 * charVal d1 + charVal d2)) ||
    (d1.isDigit && isValidDate y m (charVal d1))
  | [d1] => d1.isDigit && isValidDate y m (charVal d1)
  | [] => false

/-- States the spec's words for claim C7: month leg followed by the same
separator `s` and a day leg, with the month one or two digits. -/
def specMonthDayHere (y : ℤ) (s : Char) (l : List Char) : Bool :=
  (match l with
   | m1 :: m2 :: s2 :: rest =>
     m1.isDigit && m2.isDigit && s2 = s &&
       specDayHere y (10 * charVal m1 + charVal m2) rest
   | _ => false) ||
  (match l with
   | m1 :: s2 :: rest => m1.isDigit && s2 = s && specDayHere y (charVal m1) rest
   | _ => false)

/-- States the spec's words for claim C7: a 4-digit year, one separator from
the set, a 1–2 digit month, the same separator again, and a 1–2 digit day that
together form a valid calendar date, anchored at the head of `l`. -/
def specSameSepDateAt : List Char → Bool
  | y1 :: y2 :: y3 :: y4 :: s :: rest =>
    y1.isDigit && y2.isDigit && y3.isDigit && y4.isDigit && sepChar s &&
      specMonthDayHere
        (1000 * charVal y1 + 100 * charVal y2 + 10 * charVal y3 + charVal y4) s rest
  | _ => false

/-- States the spec's words for claim C7: the text contains, anywhere, a
same-separator date pattern forming a valid calendar date. -/
def specContainsSameSepDate : List Char → Bool
  | [] => false
  | c :: cs => specSameSepDateAt (c :: cs) || specContainsSameSepDate cs

/-- The character class kept by `orgs.norm_text`: ASCII digits and letters and
Hangul syllables (the codepoint range of the class). -/
def isKeepChar (c : Char) : Bool :=
  c.isDigit || ('A' ≤ c && c ≤ 'Z') || ('a' ≤ c && c ≤ 'z') || ('가' ≤ c && c ≤ '힣')

/-- `orgs.norm_text`: strip every other character, then lowercase (lowercasing
after the strip only affects ASCII letters, so filter-then-map agrees). -/
def norm_text (s : String) : String := ⟨(s.data.filter isKeepChar).map Char.toLower⟩

/-- `orgs.Org`: display name and normalized form. -/
structure Org where
  name : String
  norm : String
deriving DecidableEq

/-- `orgs.match_org`: scan the roster in order and return the first
organization whose normalized form has length at least 4 and is a substring of
the normalized text; otherwise no match. -/
def match_org (orgs : List Org) (text : String) : Option String :=
  orgs.findSome? (fun org =>
    if 4 ≤ org.norm.length ∧ org.norm.data <:+: (norm_text text).data then some org.name
    else none)

/-- `opengov.DocItem`. -/
structure DocItem where
  nid : String
  title : String
  pub_date : Option PyDate
  url : String
deriving DecidableEq

/-- `opengov.Attachment`. -/
structure Attachment where
  nid : String
  filename : String
  url : String
deriving DecidableEq

/-- One `table tbody tr` row of a list page, as the loop body of
`fetch_docs_all` reads it: the document id taken from the row's `/public/`
anchor (`none` when the row has no such anchor or its href has no numeric id),
the anchor's text, the row's full text (fed to `parse_date_loose`), and the
joined document url. -/
structure CrawlRow where
  nid : Option String
  title : String
  text : String
  url : String
deriving DecidableEq

/-- `opengov.compute_max_pages`: `max(1, ceil(total_count / max(1, items_per_page)))`,
as exact ceiling division. -/
def compute_max_pages (total_count items_per_page : ℕ) : ℕ :=
  max 1 ((total_count + max 1 items_per_page - 1) / max 1 items_per_page)

/-- The row loop of `fetch_docs_all`: rows without an extractable id are
skipped; the rest go into the deduplicating map keyed by id, first occurrence
winning, insertion order kept (a Python dict as an association list). -/
def insert_rows (docs : List (String × DocItem)) (rows : List CrawlRow) :
    List (String × DocItem) :=
  rows.foldl (fun acc r =>
    match r.nid with
    | none => acc
    | some nid =>
      if acc.any (fun p => p.1 = nid) then acc
      else acc ++ [(nid, ⟨nid, r.title, parse_date_loose r.text, r.url⟩)]) docs

/-- The pagination loop of `fetch_docs_all` (`for page in range(1, max_pages + 1)`),
with `remaining` the number of page indices left to visit. `pages` is the
network oracle for `get_soup` on a list page: `.error` an exception, `.ok rows`
the selected `table tbody tr` rows. On an exception the loop sleeps and moves
to the next page; an empty row list bumps the empty streak and the loop breaks
once the streak reaches `stop_after_empty`; a non-empty page resets the streak
to zero. The final list of page numbers records every request the loop issued,
in order. -/
def crawl_go (pages : ℕ → Except Unit (List CrawlRow)) (stop_after_empty : ℕ) :
    ℕ → ℕ → List (String × DocItem) → ℕ → List ℕ →
    List (String × DocItem) × List ℕ
  | 0, _, docs, _, log => (docs, log)
  | remaining + 1, page, docs, streak, log =>
    match pages page with
    | .error _ =>
      crawl_go pages stop_after_empty remaining (page + 1) docs streak (log ++ [page])
    | .ok rows =>
      if rows.isEmpty then
        if stop_after_empty ≤ streak + 1 then (docs, log ++ [page])
        else
          crawl_go pages stop_after_empty remaining (page + 1) docs (streak + 1)
            (log ++ [page])
      else
        crawl_go pages stop_after_empty remaining (page + 1) (insert_rows docs rows) 0
          (log ++ [page])

/-- `opengov.fetch_docs_all`. `probe` is the outcome of the
`fetch_total_count` call: `.error` when it raised, `.ok none` when both of its
extraction strategies failed without raising, `.ok (some n)` a parsed count.
When the probe raises, the Python body runs a bare `return`, so the caller
receives `None` instead of a document list and no list page is ever requested;
this is embedded as the `none` first component. `pages` takes the target year
(computed from `target_ym`, January/February mapping to the previous year) and
the page number, absorbing `list_page_url`. The second component is the
pagination loop's request log. -/
def fetch_docs_all (probe : Except Unit (Option ℕ))
    (pages : ℤ → ℕ → Except Unit (List CrawlRow)) (target_ym : YearMonth)
    (max_pages_fallback : ℕ) (stop_after_empty : ℕ) (items_per_page : ℕ) :
    Option (List DocItem) × List ℕ :=
  let target_y := if target_ym.month ≤ 2 then target_ym.year - 1 else target_ym.year
  match probe with
  | .error _ => (none, [])
  | .ok total =>
    let max_pages :=
      match total with
      | none => max_pages_fallback
      | some t => compute_max_pages t items_per_page
    let r := crawl_go (pages target_y) stop_after_empty max_pages 1 [] 0 []
    (some (r.1.map Prod.snd), r.2)

/-- `main.is_doc_in_month`: `start <= pub_date < end` on the half-open month
range; a document without a publish date is never in the month. -/
def is_doc_in_month (d : DocItem) (start_ end_ : PyDate) : Bool :=
  match d.pub_date with
  | none => false
  | some p => dateOrd start_ ≤ dateOrd p && dateOrd p < dateOrd end_

/-- Lines 51–55 of `main.compute_quarter_status`: the status of one
observation. `OK` when there is no publish date or it is on or before the
quarter deadline, else `LATE`. The `getD 0` default is unreachable: every
caller passes a quarter in 1..4 (the extractor's digit class and the fixed
reporting quarters); Python would raise there. -/
def doc_status (buffer_days y q : ℤ) (pub : Option PyDate) : String :=
  let deadline := (quarter_deadline_ord y q buffer_days).getD 0
  match pub with
  | none => "OK"
  | some p => if dateOrd p ≤ deadline then "OK" else "LATE"

/-- Lines 43–57 of `main.compute_quarter_status`: one document's observation —
the `(organization, year, quarter)` key and this document's status — or `none`
when the organization match or the year/quarter extraction fails. -/
def doc_observation (orgs : List Org) (buffer_days : ℤ) (d : DocItem) :
    Option ((String × ℤ × ℤ) × String) :=
  match match_org orgs d.title with
  | none => none
  | some org =>
    match extract_year_quarter d.title with
    | (some y, some q) => some ((org, y, q), doc_status buffer_days y q d.pub_date)
    | _ => none

/-- Lines 59–63 of `main.compute_quarter_status`: merging one observation's
status into the dict entry — a first observation is stored, and a later `OK`
overrides a stored non-`OK` value. -/
def merge_status (cur : Option String) (st : String) : Option String :=
  match cur with
  | none => some st
  | some c => some (if c ≠ "OK" ∧ st = "OK" then "OK" else c)

/-- One step of the document loop building the `found` dict. -/
def found_step (orgs : List Org) (buffer_days : ℤ)
    (f : String × ℤ × ℤ → Option String) (d : DocItem) :
    String × ℤ × ℤ → Option String :=
  match doc_observation orgs buffer_days d with
  | none => f
  | some ks => fun k => if k = ks.1 then merge_status (f k) ks.2 else f k

/-- The `found` dict of `main.compute_quarter_status` (lines 41–63), as a map
from keys to the merged status of the observations seen so far. -/
def found_map (orgs : List Org) (buffer_days : ℤ) (docs : List DocItem) :
    String × ℤ × ℤ → Option String :=
  docs.foldl (found_step orgs buffer_days) (fun _ => none)

/-- `main.compute_quarter_status` (lines 41–78): the `found` dict of merged
observations, then one entry per organization per reporting quarter — the
merged status when the key was observed, else `PENDING` before the deadline
and `MISSING` after it. The dict is rendered as an association list in
insertion order. -/
def compute_quarter_status (orgs : List Org) (docs : List DocItem) (today : PyDate)
    (buffer_days : ℤ) : List ((String × ℤ × ℤ) × String) :=
  let found := found_map orgs buffer_days docs
  orgs.flatMap (fun org =>
    (report_quarters today).map (fun yq =>
      ((org.name, yq.year, yq.quarter),
        match found (org.name, yq.year, yq.quarter) with
        | some st => st
        | none =>
          if dateOrd today ≤ (quarter_deadline_ord yq.year yq.quarter buffer_days).getD 0
          then "PENDING" else "MISSING")))

/-- Python `str.lower` on the character lists in scope (ASCII letters; the
Hangul and punctuation these strings carry are unaffected by lowercasing). -/
def lower_str (s : String) : String := ⟨s.data.map Char.toLower⟩

/-- `report.is_xlsx`: case-insensitive `.xlsx` suffix test. -/
def is_xlsx (filename : String) : Bool :=
  List.isSuffixOf ".xlsx".data (lower_str filename).data

/-- `summarize._truncate`. -/
def truncate_text (s : String) (max_chars : ℕ) : String :=
  if s.length ≤ max_chars then s else (⟨s.data.take max_chars⟩ : String) ++ "\n...[truncated]"

/-- `summarize._summarize_openai`. The network oracle `net` stands for the
whole guarded block (`requests.post`, `raise_for_status`, `r.json()`, the
response indexing and `.strip()`): `.ok` its result, `.error` the caught
exception's text. Everything before the `try` (reading the key, building the
request) cannot raise. -/
def summarize_openai (api_key : String) (net : Except String String) : String :=
  if api_key.trim = "" then "(OpenAI 요약 실패: OPENAI_API_KEY 미설정)"
  else
    match net with
    | .ok content => content
    | .error e => "(OpenAI 요약 실패: " ++ e ++ ")"

/-- `summarize.summarize`. The payload is carried as its JSON text
(`json.dumps` of the call sites' serializable dict); `net` is applied to the
truncated text. Dispatch: the no-op provider returns its fixed placeholder, an
unknown provider is named in a placeholder, and the OpenAI path never lets an
exception out. -/
def summarize (provider : String) (payload_text : String) (api_key : String)
    (net : String → Except String String) : String :=
  let p := lower_str (if provider = "" then "none" else provider)
  if p = "none" then "(요약 미사용: SUMMARY_PROVIDER=none)"
  else
    let text := truncate_text payload_text 12000
    if p = "openai" then summarize_openai api_key (net text)
    else "(알 수 없는 provider: " ++ p ++ ")"

/-- One attachment entry of a `DocReport` (`filename`, `url`, `kind`,
`summary` dict). -/
structure AttEntry where
  filename : String
  url : String
  kind : String
  summary : String
deriving DecidableEq

/-- The state threaded through the attachment loop of `main.main`: the seen
set, the report entries appended so far, and (instrumentation) how many
`download_bytes` calls were made. -/
structure ProcState where
  seen : List String
  reports : List AttEntry
  downloads : ℕ
deriving DecidableEq

/-- Lines 134–168 of `main.main`: processing one attachment of document `nid`.
`chain` stands for the guarded download→parse→summarize chain on the
attachment's composite key (`.error` carries the formatted exception).
Non-spreadsheet files are reported unsupported and marked seen; spreadsheet
keys already seen are reported with an empty summary and nothing downloaded;
fresh spreadsheet keys run the chain once, a failure becoming the literal
notice, and the `finally` marks the key seen either way. -/
def process_attachment (chain : String → Except String String) (nid : String)
    (a : Attachment) (st : ProcState) : ProcState :=
  let key := nid ++ "|" ++ a.url
  if ¬ is_xlsx a.filename then
    { st with reports := st.reports ++ [⟨a.filename, a.url, "unsupported", ""⟩],
              seen := st.seen.insert key }
  else if key ∈ st.seen then
    { st with reports := st.reports ++ [⟨a.filename, a.url, "xlsx", ""⟩] }
  else
    let summary :=
      match chain key with
      | .ok s => s
      | .error e => "(xlsx 처리 실패: " ++ e ++ ")"
    { seen := st.seen.insert key,
      reports := st.reports ++ [⟨a.filename, a.url, "xlsx", summary⟩],
      downloads := st.downloads + 1 }

/-- `state.save_seen`: the file holds `sorted(seen)`. -/
def save_seen (seen : List String) : List String :=
  seen.mergeSort (fun a b => decide (a ≤ b))

/-- `state.load_seen`: `set(data["seen_keys"])` — the stored list read back
with set membership semantics. -/
def load_seen (stored : List String) : List String := stored

/-- A fixture row with an extractable id, standing for a populated list page. -/
def demo_row : CrawlRow := ⟨some "100", "title", "", "url"⟩

/-- Fixture page oracle for the crawl-termination scenario: pages 5 and 6 are
structurally empty, every other page has rows. -/
def demo_pages : ℕ → Except Unit (List CrawlRow) := fun p =>
  if p = 5 ∨ p = 6 then .ok [] else .ok [demo_row]

/-- Fixture page oracle for the transient-failure scenario: fetching page 1
raises, later pages have rows. -/
def c2_pages : ℕ → Except Unit (List CrawlRow) := fun p =>
  if p = 1 then .error () else .ok [demo_row]

/-- Fixture target month (September 2025). -/
def demo_ym : YearMonth := ⟨2025, 9⟩

/-- The statuses of the observations whose key is `k`, in document order: the
per-key slice of the dict-building loop of `compute_quarter_status`. -/
def obs_statuses (orgs : List Org) (buffer_days : ℤ) (docs : List DocItem)
    (k : String × ℤ × ℤ) : List String :=
  docs.filterMap (fun d =>
    match doc_observation orgs buffer_days d with
    | some ks => if ks.1 = k then some ks.2 else none
    | none => none)

/-- A one-organization fixture roster. -/
def demo_orgs : List Org := [⟨"서울교통공사", norm_text "서울교통공사"⟩]

/-- C8: For every date `today`, `report_quarters` returns exactly four quarters,
Q1 through Q4 in that fixed order, all from the single target year
`today.year − 1` when `today.month ≤ 2` and `today.year` otherwise, regardless
of how many quarters of that year have elapsed. -/
theorem C8_report_quarters_fixed_four (today : PyDate) :
    report_quarters today =
      [⟨report_target_year today, 1⟩, ⟨report_target_year today, 2⟩,
       ⟨report_target_year today, 3⟩, ⟨report_target_year today, 4⟩] ∧
    (report_quarters today).length = 4 ∧
    report_target_year today =
      (if today.month ≤ 2 then today.year - 1 else today.year) := by
  have h0 : report_quarters today =
      [⟨report_target_year today, 1⟩, ⟨report_target_year today, 2⟩,
       ⟨report_target_year today, 3⟩, ⟨report_target_year today, 4⟩] := by
    simp only [report_quarters, List.range_succ, List.range_zero]
    norm_num
  exact ⟨h0, by rw [h0]; rfl, rfl⟩

/-- A separator character is not a digit. -/
theorem sepChar_not_digit {c : Char} (h : sepChar c = true) : c.isDigit = false := by
  simp only [sepChar, Bool.or_eq_true, decide_eq_true_eq] at h
  rcases h with (rfl | rfl) | rfl <;> rfl

/-- Soundness of the day leg: a successful match consumes one or two leading
digits whose value is the result. -/
theorem matchDayFrom_sound {l : List Char} {d : ℤ} (h : matchDayFrom l = some d) :
    ∃ ds rest, l = ds ++ rest ∧ 1 ≤ ds.length ∧ ds.length ≤ 2 ∧
      (∀ c ∈ ds, c.isDigit = true) ∧ d = digitsVal ds := by
  match l with
  | [] => simp [matchDayFrom] at h
  | [d1] =>
    simp only [matchDayFrom] at h
    split at h
    · refine ⟨[d1], [], by simp, by simp, by simp, ?_, ?_⟩
      · simpa using ‹d1.isDigit = true›
      · simp only [Option.some.injEq] at h
        simp [← h, digitsVal, List.foldl]
    · simp at h
  | d1 :: d2 :: t =>
    simp only [matchDayFrom] at h
    split at h
    · split at h
      · refine ⟨[d1, d2], t, by simp, by simp, by simp, ?_, ?_⟩
        · intro c hc
          simp only [List.mem_cons, List.not_mem_nil, or_false] at hc
          rcases hc with rfl | rfl
          · assumption
          · assumption
        · simp only [Option.some.injEq] at h
          simp [← h, digitsVal, List.foldl]
      · refine ⟨[d1], d2 :: t, by simp, by simp, by simp, ?_, ?_⟩
        · simpa using ‹d1.isDigit = true›
        · simp only [Option.some.injEq] at h
          simp [← h, digitsVal, List.foldl]
    · simp at h

/-- Completeness of the day leg: one or two leading digits always match. -/
theorem matchDayFrom_isSome (ds rest : List Char)
    (h1 : 1 ≤ ds.length) (h2 : ds.length ≤ 2) (hd : ∀ c ∈ ds, c.isDigit = true) :
    (matchDayFrom (ds ++ rest)).isSome = true := by
  match ds, h1, h2 with
  | [a], _, _ =>
    have ha : a.isDigit = true := hd a (by simp)
    match rest with
    | [] => simp [matchDayFrom, ha]
    | b :: t =>
      simp only [List.cons_append, List.nil_append, matchDayFrom, ha, if_true]
      split <;> simp
  | [a, b], _, _ =>
    have ha : a.isDigit = true := hd a (by simp)
    have hb : b.isDigit = true := hd b (by simp)
    simp [matchDayFrom, ha, hb]

/-- Soundness of the one-digit-month fallback. -/
theorem matchMSD1_sound {l : List Char} {m d : ℤ} (h : matchMSD1 l = some (m, d)) :
    ∃ ms s2 ds rest, l = ms ++ [s2] ++ ds ++ rest ∧
      1 ≤ ms.length ∧ ms.length ≤ 2 ∧ (∀ c ∈ ms, c.isDigit = true) ∧
      sepChar s2 = true ∧
      1 ≤ ds.length ∧ ds.length ≤ 2 ∧ (∀ c ∈ ds, c.isDigit = true) ∧
      m = digitsVal ms ∧ d = digitsVal ds := by
  match l with
  | m1 :: s :: rest =>
    simp only [matchMSD1] at h
    split at h
    · rename_i hcond
      simp only [Bool.and_eq_true] at hcond
      obtain ⟨hm1, hs⟩ := hcond
      simp only [Option.map_eq_some'] at h
      obtain ⟨d0, hday, heq⟩ := h
      obtain ⟨heqm, heqd⟩ := Prod.mk.inj heq
      obtain ⟨ds, rest', hsplit, hl1, hl2, hdig, hval⟩ := matchDayFrom_sound hday
      refine ⟨[m1], s, ds, rest', ?_, by simp, by simp, ?_, hs, hl1, hl2, hdig, ?_, ?_⟩
      · simp [hsplit]
      · simpa using hm1
      · simp [← heqm, digitsVal, List.foldl]
      · rw [← heqd, hval]
    · simp at h
  | [] => simp [matchMSD1] at h
  | [m1] => simp [matchMSD1] at h

/-- Soundness of the month-separator-day tail. -/
theorem matchMSD_sound {l : List Char} {m d : ℤ} (h : matchMSD l = some (m, d)) :
    ∃ ms s2 ds rest, l = ms ++ [s2] ++ ds ++ rest ∧
      1 ≤ ms.length ∧ ms.length ≤ 2 ∧ (∀ c ∈ ms, c.isDigit = true) ∧
      sepChar s2 = true ∧
      1 ≤ ds.length ∧ ds.length ≤ 2 ∧ (∀ c ∈ ds, c.isDigit = true) ∧
      m = digitsVal ms ∧ d = digitsVal ds := by
  match l with
  | m1 :: m2 :: s :: rest =>
    simp only [matchMSD] at h
    split at h
    · rename_i hcond
      simp only [Bool.and_eq_true] at hcond
      obtain ⟨⟨hm1, hm2⟩, hs⟩ := hcond
      split at h
      · rename_i d0 hday
        obtain ⟨heqm, heqd⟩ := Prod.mk.inj (Option.some.inj h)
        obtain ⟨ds, rest', hsplit, hl1, hl2, hdig, hval⟩ := matchDayFrom_sound hday
        refine ⟨[m1, m2], s, ds, rest', by simp [hsplit], by simp, by simp, ?_, hs,
          hl1, hl2, hdig, ?_, ?_⟩
        · intro c hc
          simp only [List.mem_cons, List.not_mem_nil, or_false] at hc
          rcases hc with rfl | rfl <;> assumption
        · simp [← heqm, digitsVal, List.foldl]
        · rw [← heqd, hval]
      · exact matchMSD1_sound h
    · exact matchMSD1_sound h
  | [] => exact matchMSD1_sound h
  | [m1] => exact matchMSD1_sound h
  | [m1, m2] => exact matchMSD1_sound h

/-- Completeness of the month-separator-day tail: any decomposition into a 1–2
digit month, a separator, and a 1–2 digit day matches. -/
theorem matchMSD_isSome {ms : List Char} {s2 : Char} {ds : List Char} (rest : List Char)
    (hm1 : 1 ≤ ms.length) (hm2 : ms.length ≤ 2) (hmd : ∀ c ∈ ms, c.isDigit = true)
    (hs : sepChar s2 = true)
    (hd1 : 1 ≤ ds.length) (hd2 : ds.length ≤ 2) (hdd : ∀ c ∈ ds, c.isDigit = true) :
    (matchMSD (ms ++ [s2] ++ ds ++ rest)).isSome = true := by
  match ms, hm1, hm2 with
  | [a, b], _, _ =>
    have ha : a.isDigit = true := hmd a (by simp)
    have hb : b.isDigit = true := hmd b (by simp)
    have hday := matchDayFrom_isSome ds rest hd1 hd2 hdd
    simp only [List.cons_append, List.nil_append, matchMSD, ha, hb, hs, Bool.and_self,
      if_true]
    split
    · simp
    · rename_i hnone
      rw [hnone] at hday
      simp at hday
  | [a], _, _ =>
    have ha : a.isDigit = true := hmd a (by simp)
    have hsd : s2.isDigit = false := sepChar_not_digit hs
    have hday := matchDayFrom_isSome ds rest hd1 hd2 hdd
    match ds, hd1, hd2 with
    | d1 :: dt, _, _ =>
      have hd1d : d1.isDigit = true := hdd d1 (by simp)
      simp only [List.cons_append, List.nil_append, matchMSD, ha, hsd]
      simp only [Bool.false_and, Bool.and_false, Bool.false_eq_true, if_false, matchMSD1,
        ha, hs, Bool.and_self, if_true]
      simp only [List.cons_append] at hday
      simpa using hday

/-- Soundness of the anchored date match: a success means a prefix of `l` is an
instance of the pattern with the captured values. -/
theorem matchYMD_sound {l : List Char} {y m d : ℤ} (h : matchYMD l = some (y, m, d)) :
    ∃ mid rest, l = mid ++ rest ∧ matchesTriple mid y m d := by
  match l with
  | y1 :: y2 :: y3 :: y4 :: s :: tail =>
    simp only [matchYMD] at h
    split at h
    · rename_i hcond
      simp only [Bool.and_eq_true] at hcond
      obtain ⟨⟨⟨⟨h1, h2⟩, h3⟩, h4⟩, hs⟩ := hcond
      simp only [Option.map_eq_some'] at h
      obtain ⟨⟨m0, d0⟩, hmsd, heq⟩ := h
      have heqy : 1000 * charVal y1 + 100 * charVal y2 + 10 * charVal y3 + charVal y4 = y :=
        congrArg Prod.fst heq
      have heqm : m0 = m := congrArg (fun p => p.2.1) heq
      have heqd : d0 = d := congrArg (fun p => p.2.2) heq
      obtain ⟨ms, s2, ds, rest', hsplit, hm1, hm2, hmdig, hs2, hd1, hd2, hddig, hmv, hdv⟩ :=
        matchMSD_sound hmsd
      refine ⟨[y1, y2, y3, y4] ++ [s] ++ ms ++ [s2] ++ ds, rest',
        ?_, [y1, y2, y3, y4], s, ms, s2, ds, rfl, by simp, ?_, hs, hs2,
        hm1, hm2, hmdig, hd1, hd2, hddig, ?_, heqm ▸ hmv, heqd ▸ hdv⟩
      · simp [hsplit]
      · intro c hc
        simp only [List.mem_cons, List.not_mem_nil, or_false] at hc
        rcases hc with rfl | rfl | rfl | rfl <;> assumption
      · rw [← heqy]
        simp [digitsVal, List.foldl]
        ring
    · simp at h
  | [] => simp [matchYMD] at h
  | [a] => simp [matchYMD] at h
  | [a, b] => simp [matchYMD] at h
  | [a, b, c] => simp [matchYMD] at h
  | [a, b, c, e] => simp [matchYMD] at h

/-- Completeness of the anchored date match: when a prefix of `l` is a pattern
instance, the anchored match succeeds (with the engine's preferred captures). -/
theorem matchYMD_isSome {mid : List Char} (rest : List Char) {y m d : ℤ}
    (hl : matchesTriple mid y m d) : (matchYMD (mid ++ rest)).isSome = true := by
  obtain ⟨ys, s1, ms, s2, ds, hsplit, hy4, hydig, hs1, hs2, hm1, hm2, hmdig,
    hd1, hd2, hddig, _, _, _⟩ := hl
  match ys, hy4 with
  | [y1, y2, y3, y4], _ =>
    have h1 : y1.isDigit = true := hydig y1 (by simp)
    have h2 : y2.isDigit = true := hydig y2 (by simp)
    have h3 : y3.isDigit = true := hydig y3 (by simp)
    have h4 : y4.isDigit = true := hydig y4 (by simp)
    have : mid ++ rest = y1 :: y2 :: y3 :: y4 :: s1 :: (ms ++ [s2] ++ ds ++ rest) := by
      simp [hsplit]
    rw [this]
    have hmsd := matchMSD_isSome rest hm1 hm2 hmdig hs2 hd1 hd2 hddig
    simp only [matchYMD, h1, h2, h3, h4, hs1, Bool.and_self, if_true]
    rw [Option.isSome_map']
    exact hmsd

/-- Soundness of the regex search: a successful search exhibits a pattern
instance somewhere in the text. -/
theorem searchDate_sound {l : List Char} {y m d : ℤ} (h : searchDate l = some (y, m, d)) :
    ∃ pre mid suf, l = pre ++ mid ++ suf ∧ matchesTriple mid y m d := by
  induction l with
  | nil => simp [searchDate] at h
  | cons c cs ih =>
    rw [searchDate] at h
    split at h
    · rename_i r hr
      rw [h] at hr
      obtain ⟨mid, rest, hsplit, htrip⟩ := matchYMD_sound hr
      exact ⟨[], mid, rest, by simp [hsplit], htrip⟩
    · obtain ⟨pre, mid, suf, hsplit, htrip⟩ := ih h
      exact ⟨c :: pre, mid, suf, by simp [hsplit], htrip⟩

/-- Completeness of the regex search: a pattern instance anywhere in the text
makes the search succeed. -/
theorem searchDate_isSome {l pre mid suf : List Char} {y m d : ℤ}
    (hsplit : l = pre ++ mid ++ suf) (htrip : matchesTriple mid y m d) :
    (searchDate l).isSome = true := by
  induction pre generalizing l with
  | nil =>
    have hmid : l = mid ++ suf := by simpa using hsplit
    have hne : mid ≠ [] := by
      obtain ⟨ys, s1, ms, s2, ds, hs, hy4, -⟩ := htrip
      intro hnil
      rw [hnil] at hs
      have hlen := congrArg List.length hs
      simp [hy4] at hlen
      omega
    match l, hmid with
    | [], hmid2 => exact absurd (List.append_eq_nil.mp hmid2.symm).1 hne
    | c :: cs, hmid2 =>
      rw [searchDate]
      split
      · simp
      · rename_i hnone
        have hsome := matchYMD_isSome suf htrip
        rw [← hmid2] at hsome
        rw [hnone] at hsome
        simp at hsome
  | cons p ps ih =>
    subst hsplit
    show (searchDate (p :: (ps ++ mid ++ suf))).isSome = true
    rw [searchDate]
    split
    · simp
    · exact ih rfl

/-- C7 (amended): `parse_date_loose` returns a calendar date exactly when the
leftmost match of the pattern — 4 digits, a separator from the set, 1–2 digit
month, an independently chosen separator from the same set, 1–2 digit day —
forms a valid calendar date; the search succeeds exactly when such a pattern
instance (separators not necessarily equal) occurs anywhere in the text; any
returned date is valid and drawn from such an instance; and the function is
total (never raises). -/
theorem C7_parse_date_loose_amended (s : String) :
    ((parse_date_loose s).isSome = true ↔
      ∃ y m d, searchDate s.data = some (y, m, d) ∧ isValidDate y m d = true) ∧
    ((∃ t, searchDate s.data = some t) ↔
      ∃ y m d pre mid suf, s.data = pre ++ mid ++ suf ∧ matchesTriple mid y m d) ∧
    (∀ y m d, parse_date_loose s = some ⟨y, m, d⟩ →
      isValidDate y m d = true ∧
        ∃ pre mid suf, s.data = pre ++ mid ++ suf ∧ matchesTriple mid y m d) := by
  refine ⟨?_, ?_, ?_⟩
  · cases h : searchDate s.data with
    | none =>
      have hp : parse_date_loose s = none := by unfold parse_date_loose; rw [h]
      rw [hp]
      simp only [Option.isSome_none, Bool.false_eq_true, false_iff]
      rintro ⟨y, m, d, hs, -⟩
      exact Option.noConfusion hs
    | some t =>
      obtain ⟨y0, m0, d0⟩ := t
      have hp : parse_date_loose s =
          if isValidDate y0 m0 d0 then some ⟨y0, m0, d0⟩ else none := by
        unfold parse_date_loose; rw [h]
      rw [hp]
      by_cases hv : isValidDate y0 m0 d0 = true
      · rw [if_pos hv]
        simp only [Option.isSome_some, true_iff]
        exact ⟨y0, m0, d0, rfl, hv⟩
      · rw [if_neg hv]
        simp only [Option.isSome_none, Bool.false_eq_true, false_iff]
        rintro ⟨y, m, d, hs, hval⟩
        have h2 := Option.some.inj hs
        have hy : y0 = y := congrArg Prod.fst h2
        have hm : m0 = m := congrArg (fun p => p.2.1) h2
        have hd : d0 = d := congrArg (fun p => p.2.2) h2
        exact hv (hy ▸ hm ▸ hd ▸ hval)
  · constructor
    · rintro ⟨⟨y, m, d⟩, h⟩
      obtain ⟨pre, mid, suf, hsp, htrip⟩ := searchDate_sound h
      exact ⟨y, m, d, pre, mid, suf, hsp, htrip⟩
    · rintro ⟨y, m, d, pre, mid, suf, hsp, htrip⟩
      have hsome := searchDate_isSome hsp htrip
      exact Option.isSome_iff_exists.mp hsome
  · intro y m d hpd
    cases hs : searchDate s.data with
    | none =>
      have hp : parse_date_loose s = none := by unfold parse_date_loose; rw [hs]
      rw [hp] at hpd
      exact Option.noConfusion hpd
    | some t =>
      obtain ⟨y0, m0, d0⟩ := t
      have hp : parse_date_loose s =
          if isValidDate y0 m0 d0 then some ⟨y0, m0, d0⟩ else none := by
        unfold parse_date_loose; rw [hs]
      rw [hp] at hpd
      by_cases hv : isValidDate y0 m0 d0 = true
      · rw [if_pos hv] at hpd
        have h2 := Option.some.inj hpd
        have hy : y0 = y := congrArg PyDate.year h2
        have hm : m0 = m := congrArg PyDate.month h2
        have hd : d0 = d := congrArg PyDate.day h2
        subst hy; subst hm; subst hd
        obtain ⟨pre, mid, suf, hsp, htrip⟩ := searchDate_sound hs
        exact ⟨hv, pre, mid, suf, hsp, htrip⟩
      · rw [if_neg hv] at hpd
        exact Option.noConfusion hpd

/-- C7 (counterexample to the claim as stated): the claim requires the two
separators to be equal and the result to be a date exactly when such a
same-separator valid pattern is present. The code accepts mixed separators
(input 1 below has no same-separator match, yet parses), and an invalid
leftmost candidate shadows a later valid same-separator match (input 2
contains the valid `2024.1.1`, yet parsing returns nothing). -/
theorem C7_counterexample :
    (parse_date_loose "2024-05.13" = some ⟨2024, 5, 13⟩ ∧
      specContainsSameSepDate "2024-05.13".data = false) ∧
    (parse_date_loose "0000.1.1 2024.1.1" = none ∧
      specContainsSameSepDate "0000.1.1 2024.1.1".data = true) := by
  refine ⟨⟨?_, ?_⟩, ?_, ?_⟩ <;> decide

/-- C1 (the code violates the claim): when the total-count probe raises, the
bare `return` in `fetch_docs_all` aborts the crawl — the caller gets `None`
(not a document list) and no list page is requested — whereas a probe that
merely finds no count (`.ok none`) does proceed under the fallback ceiling and
returns a crawled document set. -/
theorem C1_probe_exception_aborts_crawl :
    fetch_docs_all (.error ()) (fun _ => demo_pages) demo_ym 10 2 50 = (none, []) ∧
    (fetch_docs_all (.ok none) (fun _ => demo_pages) demo_ym 10 2 50).1.isSome = true ∧
    (fetch_docs_all (.ok none) (fun _ => demo_pages) demo_ym 10 2 50).2 ≠ [] := by
  refine ⟨rfl, rfl, ?_⟩
  decide

/-- C2 (counterexample to the claim as stated): with page 1 failing
transiently and a three-page budget, the request log is exactly `[1, 2, 3]` —
page 1 is requested once, not retried, before the loop moves on (the crawl
still completes and returns a document list). -/
theorem C2_counterexample :
    (fetch_docs_all (.ok none) (fun _ => c2_pages) demo_ym 3 2 50).2 = [1, 2, 3] ∧
    List.count 1 (fetch_docs_all (.ok none) (fun _ => c2_pages) demo_ym 3 2 50).2 = 1 ∧
    (fetch_docs_all (.ok none) (fun _ => c2_pages) demo_ym 3 2 50).1.isSome = true := by
  refine ⟨?_, ?_, rfl⟩ <;> decide

/-- C2 (amended): a page fetch that fails with a transient error is skipped
after the fixed delay without being retried: the loop issues that single
request, leaves the document map and the empty-streak counter untouched, and
continues with the next page index — the failure does not abort the crawl. -/
theorem C2_failed_page_skipped (pages : ℕ → Except Unit (List CrawlRow))
    (k rem page : ℕ) (docs : List (String × DocItem)) (streak : ℕ) (log : List ℕ)
    (h : pages page = .error ()) :
    crawl_go pages k (rem + 1) page docs streak log =
      crawl_go pages k rem (page + 1) docs streak (log ++ [page]) := by
  rw [crawl_go, h]

/-- Witness for the amended C2 at a concrete failing page. -/
theorem C2_failed_page_skipped_witness :
    crawl_go c2_pages 2 3 1 [] 0 [] = crawl_go c2_pages 2 2 2 [] 0 [1] :=
  C2_failed_page_skipped c2_pages 2 2 1 [] 0 [] rfl

/-- C6: with pages 5 and 6 structurally empty and `stop_after_empty = 2`, the
crawl requests exactly pages 1–6 and never issues a request for page 7; in
general an empty page that brings the streak up to the threshold stops the
loop at once, and any non-empty page resets the streak to zero. -/
theorem C6_crawl_stops_after_empty_streak :
    ((fetch_docs_all (.ok none) (fun _ => demo_pages) demo_ym 10 2 50).2 =
        [1, 2, 3, 4, 5, 6] ∧
      7 ∉ (fetch_docs_all (.ok none) (fun _ => demo_pages) demo_ym 10 2 50).2) ∧
    (∀ (pages : ℕ → Except Unit (List CrawlRow)) (k rem page : ℕ)
        (docs : List (String × DocItem)) (streak : ℕ) (log : List ℕ)
        (rows : List CrawlRow), pages page = .ok rows → rows ≠ [] →
      crawl_go pages k (rem + 1) page docs streak log =
        crawl_go pages k rem (page + 1) (insert_rows docs rows) 0 (log ++ [page])) ∧
    (∀ (pages : ℕ → Except Unit (List CrawlRow)) (k rem page : ℕ)
        (docs : List (String × DocItem)) (streak : ℕ) (log : List ℕ),
      pages page = .ok [] → k ≤ streak + 1 →
      crawl_go pages k (rem + 1) page docs streak log = (docs, log ++ [page])) := by
  refine ⟨⟨by decide, by decide⟩, ?_, ?_⟩
  · intro pages k rem page docs streak log rows h hne
    rw [crawl_go, h]
    simp only [List.isEmpty_iff]
    rw [if_neg hne]
  · intro pages k rem page docs streak log h hk
    rw [crawl_go, h]
    simp only [List.isEmpty_nil, if_true]
    rw [if_pos hk]

/-- C5: processing an attachment always leaves its composite key in the seen
set, whatever the download/parse/summarize chain does; persisting and
reloading the seen set preserves membership; and processing the same
spreadsheet attachment a second time — directly or after a persist/reload —
appends an empty-summary `xlsx` entry and performs no further download. -/
theorem C5_seen_key_marked_and_idempotent
    (chain chain2 : String → Except String String) (nid : String) (a : Attachment)
    (st : ProcState) (hx : is_xlsx a.filename = true) :
    (∀ (ch : String → Except String String) (b : Attachment) (st0 : ProcState),
      (nid ++ "|" ++ b.url) ∈ (process_attachment ch nid b st0).seen) ∧
    ((process_attachment chain2 nid a (process_attachment chain nid a st)).downloads =
        (process_attachment chain nid a st).downloads ∧
      (process_attachment chain2 nid a (process_attachment chain nid a st)).reports =
        (process_attachment chain nid a st).reports ++
          [⟨a.filename, a.url, "xlsx", ""⟩]) ∧
    (∀ key, key ∈ load_seen (save_seen st.seen) ↔ key ∈ st.seen) ∧
    ((process_attachment chain2 nid a
        ⟨load_seen (save_seen (process_attachment chain nid a st).seen),
          (process_attachment chain nid a st).reports,
          (process_attachment chain nid a st).downloads⟩).downloads =
        (process_attachment chain nid a st).downloads ∧
      (process_attachment chain2 nid a
        ⟨load_seen (save_seen (process_attachment chain nid a st).seen),
          (process_attachment chain nid a st).reports,
          (process_attachment chain nid a st).downloads⟩).reports =
        (process_attachment chain nid a st).reports ++
          [⟨a.filename, a.url, "xlsx", ""⟩]) := by
  have hmem : ∀ (ch : String → Except String String) (b : Attachment) (st0 : ProcState),
      (nid ++ "|" ++ b.url) ∈ (process_attachment ch nid b st0).seen := by
    intro ch b st0
    unfold process_attachment
    by_cases hxb : is_xlsx b.filename = true
    · simp only [hxb, Bool.true_eq_false, not_false_eq_true, if_false]
      by_cases hseen : (nid ++ "|" ++ b.url) ∈ st0.seen
      · rw [if_pos hseen]
        exact hseen
      · rw [if_neg hseen]
        exact List.mem_insert_self _ _
    · have hxb2 : ¬ is_xlsx b.filename = true := hxb
      rw [if_pos (by simpa using hxb2)]
      exact List.mem_insert_self _ _
  have hload : ∀ (l : List String) (key : String),
      key ∈ load_seen (save_seen l) ↔ key ∈ l := by
    intro l key
    unfold load_seen save_seen
    exact (List.mergeSort_perm l _).mem_iff
  have hsecond : ∀ (seen2 : List String) (reports2 : List AttEntry) (dl2 : ℕ),
      (nid ++ "|" ++ a.url) ∈ seen2 →
      (process_attachment chain2 nid a ⟨seen2, reports2, dl2⟩).downloads = dl2 ∧
      (process_attachment chain2 nid a ⟨seen2, reports2, dl2⟩).reports =
        reports2 ++ [⟨a.filename, a.url, "xlsx", ""⟩] := by
    intro seen2 reports2 dl2 hmem2
    unfold process_attachment
    simp only [hx, Bool.true_eq_false, not_false_eq_true, if_false]
    rw [if_pos hmem2]
    exact ⟨rfl, rfl⟩
  refine ⟨hmem, ?_, hload st.seen, ?_⟩
  · have h1 := hmem chain a st
    have h2 := hsecond (process_attachment chain nid a st).seen
      (process_attachment chain nid a st).reports
      (process_attachment chain nid a st).downloads h1
    exact h2
  · have h1 := hmem chain a st
    have h2 := hsecond (load_seen (save_seen (process_attachment chain nid a st).seen))
      (process_attachment chain nid a st).reports
      (process_attachment chain nid a st).downloads
      ((hload _ _).mpr h1)
    exact h2

/-- Witness for C5 at a concrete spreadsheet attachment: the key is seen after
one processing step. -/
theorem C5_witness :
    ("7" ++ "|" ++ "http://x") ∈
      (process_attachment (fun _ => Except.error "dl fail") "7"
        ⟨"7", "a.xlsx", "http://x"⟩ ⟨[], [], 0⟩).seen :=
  (C5_seen_key_marked_and_idempotent (fun _ => Except.error "dl fail")
    (fun _ => Except.ok "s") "7" ⟨"7", "a.xlsx", "http://x"⟩ ⟨[], [], 0⟩ (by decide)).1
    (fun _ => Except.error "dl fail") ⟨"7", "a.xlsx", "http://x"⟩ ⟨[], [], 0⟩

/-- C9: `summarize` is a total function of its inputs — the no-op provider
returns the fixed placeholder, an unrecognized provider yields a placeholder
naming it, and on the OpenAI path a missing key or a raised-and-caught network
failure comes back as failure text rather than an exception. -/
theorem C9_summarize_never_raises (provider payload_text api_key : String)
    (net : String → Except String String) :
    (summarize "none" payload_text api_key net = "(요약 미사용: SUMMARY_PROVIDER=none)") ∧
    (∀ p, p = lower_str (if provider = "" then "none" else provider) →
      p ≠ "none" → p ≠ "openai" →
      summarize provider payload_text api_key net = "(알 수 없는 provider: " ++ p ++ ")") ∧
    (∀ e, (∀ t, net t = .error e) → api_key.trim ≠ "" →
      summarize "openai" payload_text api_key net = "(OpenAI 요약 실패: " ++ e ++ ")") ∧
    (api_key.trim = "" →
      summarize "openai" payload_text api_key net =
        "(OpenAI 요약 실패: OPENAI_API_KEY 미설정)") := by
  refine ⟨rfl, ?_, ?_, ?_⟩
  · intro p hp hnone hopenai
    subst hp
    unfold summarize
    rw [if_neg hnone, if_neg hopenai]
  · intro e hnet hkey
    have hstep : summarize "openai" payload_text api_key net =
        summarize_openai api_key (net (truncate_text payload_text 12000)) := rfl
    rw [hstep]
    unfold summarize_openai
    rw [if_neg hkey, hnet]
  · intro hkey
    have hstep : summarize "openai" payload_text api_key net =
        summarize_openai api_key (net (truncate_text payload_text 12000)) := rfl
    rw [hstep]
    unfold summarize_openai
    rw [if_pos hkey]

/-- C10: a document without a publish date is never inside the target month —
`is_doc_in_month` is false on it, so the month filter of `main` (which guards
attachment fetching and processing) excludes it — while the quarter-status
observation for the same document resolves `OK`. -/
theorem C10_no_pub_date_excluded_from_month (d : DocItem) (lo hi : PyDate)
    (docs : List DocItem) (b y q : ℤ) (h : d.pub_date = none) :
    is_doc_in_month d lo hi = false ∧
    d ∉ docs.filter (fun x => is_doc_in_month x lo hi) ∧
    doc_status b y q d.pub_date = "OK" := by
  refine ⟨?_, ?_, ?_⟩
  · unfold is_doc_in_month
    rw [h]
  · intro hmem
    have := (List.mem_filter.mp hmem).2
    rw [show is_doc_in_month d lo hi = false from by unfold is_doc_in_month; rw [h]] at this
    exact Bool.noConfusion this
  · unfold doc_status
    rw [h]

/-- Witness for C10 at a concrete undated document. -/
theorem C10_witness :
    is_doc_in_month ⟨"1", "t", none, "u"⟩ ⟨2025, 8, 1⟩ ⟨2025, 9, 1⟩ = false :=
  (C10_no_pub_date_excluded_from_month ⟨"1", "t", none, "u"⟩ ⟨2025, 8, 1⟩ ⟨2025, 9, 1⟩
    [] 30 2025 1 rfl).1

/-- A single observation's status is `OK` or `LATE`. -/
theorem doc_status_ok_or_late (b y q : ℤ) (pub : Option PyDate) :
    doc_status b y q pub = "OK" ∨ doc_status b y q pub = "LATE" := by
  unfold doc_status
  cases pub with
  | none => exact Or.inl rfl
  | some p =>
    dsimp only
    split
    · exact Or.inl rfl
    · exact Or.inr rfl

/-- The status carried by any observation is `OK` or `LATE`. -/
theorem doc_observation_status {orgs : List Org} {b : ℤ} {d : DocItem}
    {k : String × ℤ × ℤ} {st : String}
    (h : doc_observation orgs b d = some (k, st)) : st = "OK" ∨ st = "LATE" := by
  unfold doc_observation at h
  cases hmo : match_org orgs d.title with
  | none => rw [hmo] at h; exact Option.noConfusion h
  | some org =>
    rw [hmo] at h
    rcases heq : extract_year_quarter d.title with ⟨oy, oq⟩
    rw [heq] at h
    cases oy with
    | none => exact Option.noConfusion h
    | some y =>
      cases oq with
      | none => exact Option.noConfusion h
      | some q =>
        have h2 := Option.some.inj h
        have h3 : doc_status b y q d.pub_date = st := congrArg Prod.snd h2
        rw [← h3]
        exact doc_status_ok_or_late b y q d.pub_date

/-- The dict-building fold, restricted to one key, is the fold of
`merge_status` over that key's observation statuses. -/
theorem foldl_found_step (orgs : List Org) (b : ℤ) :
    ∀ (docs : List DocItem) (f : String × ℤ × ℤ → Option String) (k : String × ℤ × ℤ),
      (docs.foldl (found_step orgs b) f) k =
        (obs_statuses orgs b docs k).foldl merge_status (f k) := by
  intro docs
  induction docs with
  | nil => intro f k; rfl
  | cons d rest ih =>
    intro f k
    rw [List.foldl_cons, ih]
    unfold obs_statuses
    rw [List.filterMap_cons]
    cases hobs : doc_observation orgs b d with
    | none =>
      unfold found_step
      rw [hobs]
    | some ks =>
      unfold found_step
      rw [hobs]
      dsimp only
      by_cases hk : ks.1 = k
      · rw [if_pos hk, List.foldl_cons]
        have : (if k = ks.1 then merge_status (f k) ks.2 else f k) =
            merge_status (f k) ks.2 := if_pos hk.symm
        rw [this]
      · rw [if_neg hk]
        have : (if k = ks.1 then merge_status (f k) ks.2 else f k) = f k :=
          if_neg (fun hcon => hk hcon.symm)
        rw [this]

/-- Membership in a key's observation-status list is exactly an observation on
that key among the documents. -/
theorem mem_obs_statuses {orgs : List Org} {b : ℤ} {docs : List DocItem}
    {k : String × ℤ × ℤ} {st : String} :
    st ∈ obs_statuses orgs b docs k ↔
      ∃ d ∈ docs, doc_observation orgs b d = some (k, st) := by
  unfold obs_statuses
  rw [List.mem_filterMap]
  constructor
  · rintro ⟨d, hd, hf⟩
    refine ⟨d, hd, ?_⟩
    cases hobs : doc_observation orgs b d with
    | none => rw [hobs] at hf; exact Option.noConfusion hf
    | some ks =>
      rw [hobs] at hf
      dsimp only at hf
      split at hf
      · rename_i hk1
        have h2 : ks.2 = st := Option.some.inj hf
        rw [← hk1, ← h2]
      · exact Option.noConfusion hf
  · rintro ⟨d, hd, hobs⟩
    refine ⟨d, hd, ?_⟩
    rw [hobs]
    exact if_pos rfl

/-- Characterization of folding `merge_status` over a list of `OK`/`LATE`
statuses: the result is `OK` as soon as the start or any element is `OK`,
`none` only for an empty fold from `none`, and `LATE` otherwise. -/
theorem merge_fold_char :
    ∀ (l : List String), (∀ x ∈ l, x = "OK" ∨ x = "LATE") →
    ∀ (start : Option String),
      (start = none ∨ start = some "OK" ∨ start = some "LATE") →
      l.foldl merge_status start =
        if start = some "OK" ∨ "OK" ∈ l then some "OK"
        else if start = none ∧ l = [] then none
        else some "LATE" := by
  intro l
  induction l with
  | nil =>
    intro _ start hst
    rcases hst with rfl | rfl | rfl <;> simp
  | cons a t ih =>
    intro hl start hst
    have ha := hl a (List.mem_cons_self a t)
    have ht : ∀ x ∈ t, x = "OK" ∨ x = "LATE" :=
      fun x hx => hl x (List.mem_cons_of_mem a hx)
    rw [List.foldl_cons]
    rcases hst with rfl | rfl | rfl <;> rcases ha with rfl | rfl
    · rw [show merge_status none "OK" = some "OK" from rfl,
        ih ht (some "OK") (Or.inr (Or.inl rfl))]
      simp
    · rw [show merge_status none "LATE" = some "LATE" from rfl,
        ih ht (some "LATE") (Or.inr (Or.inr rfl))]
      simp
    · rw [show merge_status (some "OK") "OK" = some "OK" from rfl,
        ih ht (some "OK") (Or.inr (Or.inl rfl))]
      simp
    · rw [show merge_status (some "OK") "LATE" = some "OK" from rfl,
        ih ht (some "OK") (Or.inr (Or.inl rfl))]
      simp
    · rw [show merge_status (some "LATE") "OK" = some "OK" from rfl,
        ih ht (some "OK") (Or.inr (Or.inl rfl))]
      simp
    · rw [show merge_status (some "LATE") "LATE" = some "LATE" from rfl,
        ih ht (some "LATE") (Or.inr (Or.inr rfl))]
      simp

/-- The merged value of a key in the `found` dict, by the shape of that key's
observation-status list. -/
theorem found_map_char (orgs : List Org) (b : ℤ) (docs : List DocItem)
    (k : String × ℤ × ℤ) :
    found_map orgs b docs k =
      if "OK" ∈ obs_statuses orgs b docs k then some "OK"
      else if obs_statuses orgs b docs k = [] then none
      else some "LATE" := by
  have h1 : found_map orgs b docs k =
      (obs_statuses orgs b docs k).foldl merge_status none :=
    foldl_found_step orgs b docs (fun _ => none) k
  have hl : ∀ x ∈ obs_statuses orgs b docs k, x = "OK" ∨ x = "LATE" := by
    intro x hx
    obtain ⟨d, _, hobs⟩ := mem_obs_statuses.mp hx
    exact doc_observation_status hobs
  rw [h1, merge_fold_char _ hl none (Or.inl rfl)]
  simp

/-- C3: for a fixed `(organization, year, quarter)` key, the merged status of
the dict-building loop of `compute_quarter_status` is `OK` exactly when some
matching observation resolves `OK`; when matching observations exist and all
are `LATE`, the merged status is `LATE`; and reordering the document list
never changes the merged status (the merge is commutative and OK-dominant). -/
theorem C3_merge_ok_dominant_order_free (orgs : List Org) (b : ℤ)
    (docs docs2 : List DocItem) (k : String × ℤ × ℤ) :
    (found_map orgs b docs k = some "OK" ↔
      ∃ d ∈ docs, doc_observation orgs b d = some (k, "OK")) ∧
    ((∃ d ∈ docs, ∃ st, doc_observation orgs b d = some (k, st)) ∧
      (∀ d ∈ docs, ∀ st, doc_observation orgs b d = some (k, st) → st = "LATE") →
      found_map orgs b docs k = some "LATE") ∧
    (docs.Perm docs2 → found_map orgs b docs k = found_map orgs b docs2 k) := by
  refine ⟨?_, ?_, ?_⟩
  · rw [found_map_char]
    by_cases hm : "OK" ∈ obs_statuses orgs b docs k
    · rw [if_pos hm]
      exact iff_of_true rfl (mem_obs_statuses.mp hm)
    · rw [if_neg hm]
      have hrhs : ¬ ∃ d ∈ docs, doc_observation orgs b d = some (k, "OK") :=
        fun hex => hm (mem_obs_statuses.mpr hex)
      by_cases hnil : obs_statuses orgs b docs k = []
      · rw [if_pos hnil]
        exact iff_of_false (by simp) hrhs
      · rw [if_neg hnil]
        exact iff_of_false (by simp) hrhs
  · rintro ⟨⟨d, hd, st, hobs⟩, hall⟩
    have hstm : st ∈ obs_statuses orgs b docs k := mem_obs_statuses.mpr ⟨d, hd, hobs⟩
    have hnil : obs_statuses orgs b docs k ≠ [] := List.ne_nil_of_mem hstm
    have hok : "OK" ∉ obs_statuses orgs b docs k := by
      intro hok
      obtain ⟨d2, hd2, hobs2⟩ := mem_obs_statuses.mp hok
      have := hall d2 hd2 "OK" hobs2
      simp at this
    rw [found_map_char, if_neg hok, if_neg hnil]
  · intro hp
    have hobs : (obs_statuses orgs b docs k).Perm (obs_statuses orgs b docs2 k) :=
      hp.filterMap _
    rw [found_map_char, found_map_char]
    by_cases hm : "OK" ∈ obs_statuses orgs b docs k
    · rw [if_pos hm, if_pos (hobs.mem_iff.mp hm)]
    · rw [if_neg hm, if_neg (fun hc => hm (hobs.mem_iff.mpr hc))]
      by_cases hnil : obs_statuses orgs b docs k = []
      · have hnil2 : obs_statuses orgs b docs2 k = [] := by
          rw [hnil] at hobs
          exact hobs.symm.eq_nil
        rw [if_pos hnil, if_pos hnil2]
      · have hnil2 : obs_statuses orgs b docs2 k ≠ [] := by
          intro hc
          rw [hc] at hobs
          exact hnil hobs.eq_nil
        rw [if_neg hnil, if_neg hnil2]

/-- The reporting-quarter list always has four entries. -/
theorem report_quarters_length (today : PyDate) : (report_quarters today).length = 4 := rfl

/-- C4: for a roster with distinct names, `compute_quarter_status` outputs
exactly one entry per (organization, reporting-quarter) pair — `4 × |orgs|`
keys, no duplicates, and no key outside the roster × reporting-quarter grid —
and every pair not covered by any observation is `PENDING` when today is on or
before that quarter's deadline and `MISSING` after it. -/
theorem C4_reconciliation_covers_grid (orgs : List Org) (docs : List DocItem)
    (today : PyDate) (b : ℤ) (hnd : (orgs.map Org.name).Nodup) (hne : orgs ≠ []) :
    (compute_quarter_status orgs docs today b).length = 4 * orgs.length ∧
    compute_quarter_status orgs docs today b ≠ [] ∧
    ((compute_quarter_status orgs docs today b).map Prod.fst).Nodup ∧
    (∀ k : String × ℤ × ℤ,
      k ∈ (compute_quarter_status orgs docs today b).map Prod.fst ↔
        (k.1 ∈ orgs.map Org.name ∧
          ∃ yq ∈ report_quarters today, k.2.1 = yq.year ∧ k.2.2 = yq.quarter)) ∧
    (∀ org ∈ orgs, ∀ yq ∈ report_quarters today,
      (∀ d ∈ docs, ∀ st,
        doc_observation orgs b d ≠ some ((org.name, yq.year, yq.quarter), st)) →
      ((org.name, yq.year, yq.quarter),
        if dateOrd today ≤ (quarter_deadline_ord yq.year yq.quarter b).getD 0
        then "PENDING" else "MISSING") ∈ compute_quarter_status orgs docs today b) := by
  have hkeys : (compute_quarter_status orgs docs today b).map Prod.fst =
      orgs.flatMap (fun o =>
        (report_quarters today).map (fun yq => (o.name, yq.year, yq.quarter))) := by
    simp only [compute_quarter_status]
    rw [List.map_flatMap]
    simp only [List.map_map]
    rfl
  have hlen : (compute_quarter_status orgs docs today b).length = 4 * orgs.length := by
    have h2 := congrArg List.length hkeys
    rw [List.length_map] at h2
    rw [h2, List.length_flatMap]
    have h3 : List.map (List.length ∘ fun o : Org =>
        (report_quarters today).map (fun yq => (o.name, yq.year, yq.quarter))) orgs =
        List.map (fun _ => 4) orgs := by
      apply List.map_congr_left
      intro o _
      simp only [Function.comp_apply, List.length_map, report_quarters_length]
    rw [h3]
    simp [List.map_const', List.sum_replicate, Nat.mul_comm]
  refine ⟨hlen, ?_, ?_, ?_, ?_⟩
  · intro hcon
    rw [hcon] at hlen
    simp only [List.length_nil] at hlen
    have : orgs.length = 0 := by omega
    exact hne (List.length_eq_zero.mp this)
  · rw [hkeys, List.nodup_flatMap]
    constructor
    · intro o _
      have h4 : (report_quarters today).map (fun yq => (o.name, yq.year, yq.quarter)) =
          [(o.name, report_target_year today, 1), (o.name, report_target_year today, 2),
           (o.name, report_target_year today, 3), (o.name, report_target_year today, 4)] := by
        unfold report_quarters
        simp only [List.range_succ, List.range_zero]
        norm_num
      rw [h4]
      simp
    · have hpw : orgs.Pairwise (fun a b : Org => a.name ≠ b.name) :=
        List.pairwise_map.mp hnd
      refine hpw.imp ?_
      intro a b hab
      intro x hxa hxb
      obtain ⟨yqa, _, hxa2⟩ := List.mem_map.mp hxa
      obtain ⟨yqb, _, hxb2⟩ := List.mem_map.mp hxb
      have h5 : a.name = b.name := by
        have e1 : x.1 = a.name := by rw [← hxa2]
        have e2 : x.1 = b.name := by rw [← hxb2]
        rw [← e1, e2]
      exact hab h5
  · intro k
    rw [hkeys]
    simp only [List.mem_flatMap, List.mem_map]
    constructor
    · rintro ⟨o, ho, yq, hyq, heq⟩
      refine ⟨⟨o, ho, ?_⟩, yq, hyq, ?_, ?_⟩
      · rw [← heq]
      · rw [← heq]
      · rw [← heq]
    · rintro ⟨⟨o, ho, honame⟩, yq, hyq, h21, h22⟩
      refine ⟨o, ho, yq, hyq, ?_⟩
      simp only [Prod.ext_iff]
      exact ⟨honame, h21.symm, h22.symm⟩
  · intro org horg yq hyq hnoobs
    have hobsnil : obs_statuses orgs b docs (org.name, yq.year, yq.quarter) = [] := by
      rw [List.eq_nil_iff_forall_not_mem]
      intro st hst
      obtain ⟨d, hd, hobs⟩ := mem_obs_statuses.mp hst
      exact hnoobs d hd st hobs
    have hfnone : found_map orgs b docs (org.name, yq.year, yq.quarter) = none := by
      rw [found_map_char, hobsnil]
      simp
    have hmem : ((org.name, yq.year, yq.quarter),
        match found_map orgs b docs (org.name, yq.year, yq.quarter) with
        | some st => st
        | none =>
          if dateOrd today ≤ (quarter_deadline_ord yq.year yq.quarter b).getD 0
          then "PENDING" else "MISSING") ∈ compute_quarter_status orgs docs today b := by
      simp only [compute_quarter_status]
      rw [List.mem_flatMap]
      exact ⟨org, horg, List.mem_map.mpr ⟨yq, hyq, rfl⟩⟩
    rw [hfnone] at hmem
    exact hmem

/-- Witness for C4 at a concrete roster and date: one organization, an empty
crawl, four keys. -/
theorem C4_witness :
    (compute_quarter_status demo_orgs [] ⟨2025, 4, 1⟩ 30).length = 4 * demo_orgs.length :=
  (C4_reconciliation_covers_grid demo_orgs [] ⟨2025, 4, 1⟩ 30 (by decide) (by decide)).1
